import Mathlib

set_option maxRecDepth 40000

/-!
Shallow embedding of `src/lib.rs` of the tracing-tree repository
(`HierarchicalLayer`), together with theorems settling the frozen claims
about its rendering engine.

Conventions of the embedding:
* Rust `String` buffers are Lean `String`; character-level work uses
  `List Char` (a Lean `String` is a structure around `List Char`).
* Machine integers (`usize`) are `Nat`; the unchecked subtractions
  `200 - idt.len()` and `200 + name_len - idt.len()` are modelled with an
  explicit bounds check whose failure is the Rust debug-overflow panic,
  returned as `Except.error`.
* Wall-clock timestamps are modelled at millisecond granularity as `Int`;
  chrono's `Duration::num_milliseconds` of `now - start` is then
  `now - start` itself.
* Fallible code (every `expect`/panic reachable in the rendering paths)
  returns `Except String α`, the error string being the panic message.
-/

namespace TracingTree

/-! ## StyleEngine: `ansi_term` painting and `HierarchicalLayer::styled` -/

/-- Modelled from the external `ansi_term` crate: painting wraps the text in
an SGR escape sequence prelude carrying the style code and the reset
sequence. The exact code strings are irrelevant to the claims; what matters
is that the unstyled text sits between the two escape sequences. -/
def ansiPaint (code : String) (text : String) : String :=
  "\x1b[" ++ code ++ "m" ++ text ++ "\x1b[0m"

/-- `HierarchicalLayer::styled` (src/lib.rs lines 124-130): paint when
`self.ansi` is set, otherwise return the text unchanged. -/
def styled (ansi : Bool) (code : String) (text : String) : String :=
  if ansi then ansiPaint code text else text

/-! ## Severity levels -/

/-- The five `tracing::Level` values. -/
inductive Level
  | trace
  | debug
  | info
  | warn
  | error

/-- The inner (pre-styling) texts of `ColorLevel`'s `Display` impl
(src/lib.rs lines 96-107): 5-character fields, ` INFO` and ` WARN` carrying
a leading padding space. -/
def colorLevelText : Level → String
  | .trace => "TRACE"
  | .debug => "DEBUG"
  | .info  => " INFO"
  | .warn  => " WARN"
  | .error => "ERROR"

/-- The ansi_term style codes used by `ColorLevel` (bold + color; the exact
digits are irrelevant to the claims). -/
def levelCode : Level → String
  | .trace => "1;35"
  | .debug => "1;34"
  | .info  => "1;32"
  | .warn  => "1;38;2;252;234;160"
  | .error => "1;31"

/-- Modelled from the external `tracing` crate: `Level`'s `fmt::Display`
prints the bare uppercase name with no padding, so `Level::INFO.to_string()`
is `INFO` (4 characters) and likewise `WARN`. -/
def levelDisplay : Level → String
  | .trace => "TRACE"
  | .debug => "DEBUG"
  | .info  => "INFO"
  | .warn  => "WARN"
  | .error => "ERROR"

/-- The level string written by `on_event` (src/lib.rs lines 296-300):
`ColorLevel(level).to_string()` when ansi, `level.to_string()` otherwise. -/
def eventLevelString (ansi : Bool) (l : Level) : String :=
  if ansi then ansiPaint (levelCode l) (colorLevelText l) else levelDisplay l

/-! ## IndentRenderer: the connector-prefix and branch-marker loops -/

/-- The indent string built by the identical `while` loops in
`FmtEvent::print` (lines 36-45) and `HierarchicalLayer::print`
(lines 174-183): for `i` in `[0, indent * indent_amount)`, the char `┃` when
`i % indent_amount == 0`, else a space. -/
def idtChars (indent amount : Nat) : List Char :=
  (List.range (indent * amount)).map (fun i => if i % amount = 0 then '┃' else ' ')

/-- UTF-8 byte length of a char list; `┃`, `┣`, `━` take 3 bytes each,
ASCII takes 1. This is Rust's `String::len` on the buffer holding these
chars. -/
def strBytesL (l : List Char) : Nat := (l.map Char.utf8Size).sum

/-- `HierarchicalLayer::print_indent` (src/lib.rs lines 194-210): the
connector loop runs for `i < (indent - 1) * indent_amount`, then the
constant `LINE = "┣━"` is written, then `indent_amount.saturating_sub(2)/2`
further `━` glyphs. Call sites guarantee `indent >= 1` (the Rust `indent - 1`
would otherwise overflow); `Nat` subtraction saturates identically to
`saturating_sub`. -/
def printIndentChars (indent amount : Nat) : List Char :=
  ((List.range ((indent - 1) * amount)).map (fun i => if i % amount = 0 then '┃' else ' '))
    ++ ('┣' :: '━' :: List.replicate ((amount - 2) / 2) '━')

/-- Modelled from the spec (section 4.2): `branchMarker(depth, unit)` is the
connector prefix for `depth - 1` levels, followed by the glyph `┣` and
`(unit - 2) / 2` repetitions of `━` (integer division, floor). Stated for
comparison with `printIndentChars`, the marker the code actually writes. -/
def specBranchMarker (depth unit : Nat) : List Char :=
  idtChars (depth - 1) unit ++ ('┣' :: List.replicate ((unit - 2) / 2) '━')

/-! ## LineWrapper: model of `textwrap::Wrapper` 0.11 with `break_words(true)`

Modelled from the external `textwrap` crate (version 0.11, the one the crate
depends on): the text is split into words on whitespace runs, then lines are
filled greedily; a word that does not fit on a fresh line is broken at the
width (`break_words`). Widths are counted in display columns; every
character appearing in this development (ASCII and the box-drawing glyphs)
has display width 1, so columns are modelled as char count. The default
splitter's additional hyphen-splitting is not modelled; no input considered
here contains a hyphen. -/

/-- Split into whitespace-separated words (the semantics of Rust's
`str::split_whitespace` used by textwrap): runs of whitespace separate
words, leading/trailing whitespace produces no empty words. -/
def splitWordsAux : List Char → List Char → List (List Char)
  | [], cur => if cur = [] then [] else [cur.reverse]
  | c :: rest, cur =>
    if c.isWhitespace then
      if cur = [] then splitWordsAux rest [] else cur.reverse :: splitWordsAux rest []
    else splitWordsAux rest (c :: cur)

/-- Words of a buffer, as textwrap sees them. -/
def splitWords (s : String) : List (List Char) := splitWordsAux s.data []

/-- Greedily extend the current line `cur` (which already carries its indent)
with words from `ws` while the line stays within `width` columns. `fresh`
records whether the line still holds only its indent: the first word of a
line is appended without a separating space, and only on a fresh line is an
oversized word broken (`break_words(true)`), taking
`max 1 (width - cur.length)` of its chars. Returns the finished line and the
words (with a possibly shortened broken word) left for later lines. -/
def takeLine (width : Nat) : List Char → Bool → List (List Char) → List Char × List (List Char)
  | cur, _, [] => (cur, [])
  | cur, true, w :: rest =>
    if cur.length + w.length ≤ width then takeLine width (cur ++ w) false rest
    else
      (cur ++ w.take (max 1 (width - cur.length)),
        if w.drop (max 1 (width - cur.length)) = [] then rest
        else w.drop (max 1 (width - cur.length)) :: rest)
  | cur, false, w :: rest =>
    if cur.length + 1 + w.length ≤ width then takeLine width (cur ++ (' ' :: w)) false rest
    else (cur, w :: rest)

/-- Produce the wrapped lines: each new line starts as `subInd` (the
`subsequent_indent`). `fuel` bounds the iteration; each round consumes at
least one char or one word, so `wsMeasure + 1` fuel always suffices, and the
structural theorems below hold for every fuel. -/
def wrapFuel (width : Nat) (subInd : List Char) : Nat → List Char → List (List Char) → List (List Char)
  | 0, cur, _ => [cur]
  | fuel + 1, cur, ws =>
    match takeLine width cur true ws with
    | (line, []) => [line]
    | (line, w :: rest) => line :: wrapFuel width subInd fuel subInd (w :: rest)

/-- Fuel bound: total char count plus word count. -/
def wsMeasure (ws : List (List Char)) : Nat := (ws.map (fun w => w.length + 1)).sum

/-- `Wrapper::wrap`: the first line starts as `initial_indent` (empty for
`FmtEvent::print`, the connector prefix for `HierarchicalLayer::print`),
later lines as `subsequent_indent`. The wrap iterator's final-line guard is
`start < source.len()`, so wrapping the empty string yields no lines at all
(textwrap 0.11's own test pins `fill("")` to `""`); a nonempty source always
yields at least one line. -/
def wrapAll (width : Nat) (initInd subInd : List Char) (s : String) : List (List Char) :=
  if s.data = [] then []
  else wrapFuel width subInd (wsMeasure (splitWords s) + 1) initInd (splitWords s)

/-- The write loop of `HierarchicalLayer::print` (src/lib.rs lines 188-190):
`writeln!` for every wrapped segment, so each one, the last included, is
terminated with a newline. -/
def writeAllLn : List (List Char) → String
  | [] => ""
  | l :: rest => String.mk l ++ "\n" ++ writeAllLn rest

/-- The write loop of `FmtEvent::print` (src/lib.rs lines 50-53): `writeln!`
for all segments but the last, plain `write!` for the last, which is left
unterminated. -/
def writeAllButLastLn : List (List Char) → String
  | [] => ""
  | [l] => String.mk l
  | l :: l2 :: rest => String.mk l ++ "\n" ++ writeAllButLastLn (l2 :: rest)

/-- The width handed to `Wrapper::new` by `HierarchicalLayer::print`
(line 184): `200 + name_len - idt.len()`, with `idt.len()` the UTF-8 byte
length of the indent string. -/
def headerWidth (indent amount nameLen : Nat) : Nat :=
  200 + nameLen - strBytesL (idtChars indent amount)

/-- The width handed to `Wrapper::new` by `FmtEvent::print` (line 46):
`200 - idt.len()`. -/
def eventWidth (indent amount : Nat) : Nat :=
  200 - strBytesL (idtChars indent amount)

/-- `HierarchicalLayer::print` (src/lib.rs lines 167-192): build the indent,
wrap `buf` to `200 + name_len - idt.len()` with the indent as both initial
and subsequent indent, write every segment with a trailing newline. The
unchecked `usize` subtraction panics (debug overflow check) when the
indent's byte length exceeds `200 + name_len`. -/
def hlPrint (amount : Nat) (buf : String) (indent nameLen : Nat) : Except String String :=
  if strBytesL (idtChars indent amount) ≤ 200 + nameLen then
    Except.ok (writeAllLn (wrapAll (headerWidth indent amount nameLen)
      (idtChars indent amount) (idtChars indent amount) buf))
  else Except.error "attempt to subtract with overflow"

/-- `FmtEvent::print` (src/lib.rs lines 35-54): build the indent, wrap the
field buffer to `200 - idt.len()` with no initial indent and the connector
prefix as subsequent indent, write all segments but the last with a newline.
The subtraction panics as in `hlPrint`; indexing `wrapped[wrapped.len()-1]`
also panics (the same debug-overflow message, from `0usize - 1`) on an empty
wrap result, which occurs exactly when the field buffer is empty. -/
def fmtEventPrint (amount : Nat) (buf : String) (indent : Nat) : Except String String :=
  if strBytesL (idtChars indent amount) ≤ 200 then
    match wrapAll (eventWidth indent amount) [] (idtChars indent amount) buf with
    | [] => Except.error "attempt to subtract with overflow"
    | l :: rest => Except.ok (writeAllButLastLn (l :: rest))
  else Except.error "attempt to subtract with overflow"

/-! ## Field recording -/

/-- Concatenation of a string list (explicit, so proofs can recurse). -/
def strConcat : List String → String
  | [] => ""
  | s :: rest => s ++ strConcat rest

/-- `impl Visit for FmtEvent` / `record_debug` (src/lib.rs lines 74-92):
first `write!("{comma} ")` appends a comma iff a prior field set the flag,
then always a space; then the value alone for a field named `message`, and
`name=value` otherwise; the flag is set in both branches. The state is the
`(comma, buf)` pair; `value` is the already debug-formatted text (the
`format!("{:?}", ..)` capability of the visited value). -/
def recordDebug : Bool × String → String → String → Bool × String
  | (comma, buf), name, value =>
    if name = "message" then (true, (buf ++ ((if comma then "," else "") ++ " ")) ++ value)
    else (true, (buf ++ ((if comma then "," else "") ++ " ")) ++ (name ++ "=" ++ value))

/-- `event.record(&mut visitor)` over an ordered field list, starting from
`comma = false` and an empty buffer; returns the final buffer. -/
def recordFields (fields : List (String × String)) : String :=
  (fields.foldl (fun st f => recordDebug st f.1 f.2) (false, "")).2

/-- The per-field body: the bare value for `message`, `name=value` otherwise. -/
def fieldBody (f : String × String) : String :=
  if f.1 = "message" then f.2 else f.1 ++ "=" ++ f.2

/-- `HierarchicalLayer::append_kvs` (src/lib.rs lines 132-165), at the
`leading = ""` call site: first pair as `k=v`, later pairs as `, k=v` (no
`message` special-casing on the header path). -/
def appendKvs : List (String × String) → String
  | [] => ""
  | f :: rest => (f.1 ++ "=" ++ f.2) ++ strConcat (rest.map (fun g => ", " ++ g.1 ++ "=" ++ g.2))

/-! ## SpanContextStore and the lifecycle handlers -/

/-- The per-span `Data` record (src/lib.rs lines 23-26): creation timestamp
and the fields captured at creation. -/
structure Data where
  start : Int
  kvs : List (String × String)

/-- Depth used by `on_enter` (line 229): `ctx.scope().collect().len() - 1`;
at entry time the scope ends with the entering span itself. -/
def onEnterIndent (scope : List Nat) : Nat := scope.length - 1

/-- Depth used by `on_event` (lines 266-274): the full scope length when a
current span exists, `0` otherwise. -/
def onEventIndent (hasCurrent : Bool) (scope : List Nat) : Nat :=
  if hasCurrent then scope.length else 0

/-- The span-start lookup of `on_event` (src/lib.rs lines 278-291). The
argument nests the three lookups: outer `Option` = does
`ctx.current_span().id()` yield an id; middle = does `ctx.span(id)` find the
span; inner = does the span's extension store hold `Data`. A missing span
yields `None` (fallback), but a present span without `Data` hits
`.expect("Data cannot be found in extensions")`. -/
def eventStart : Option (Option (Option Data)) → Except String (Option Int)
  | none => Except.ok none
  | some none => Except.ok none
  | some (some none) => Except.error "Data cannot be found in extensions"
  | some (some (some d)) => Except.ok (some d.start)

/-- The timing/level portion written by `on_event` (src/lib.rs lines
293-312): nothing when no span start was found; otherwise the dimmed elapsed
milliseconds, the dimmed unit `ms`, a space, and the severity label — the
level is only written in this branch. -/
def eventTimeStr (ansi : Bool) (now : Int) (lvl : Level) : Option Int → String
  | none => ""
  | some start =>
    styled ansi "2" (toString (now - start)) ++ styled ansi "2" "ms" ++ " "
      ++ eventLevelString ansi lvl

/-- `on_enter` (src/lib.rs lines 223-261): look up the span's `Data`
(`.expect("span does not have data")` on a missing record), assemble
`styled(name) ++ styled("\x7b") ++ kvs ++ styled("\x7d")`, and print via
`HierarchicalLayer::print` at depth `scope.len() - 1` with the name length
added to the width. -/
def onEnterRender (amount : Nat) (ansi : Bool) (ext : Option Data) (scope : List Nat)
    (name : String) : Except String String :=
  match ext with
  | none => Except.error "span does not have data"
  | some data =>
    hlPrint amount
      (styled ansi "1;32" name ++ styled ansi "1;32" "\x7b"
        ++ appendKvs data.kvs ++ styled ansi "1;32" "\x7d")
      (onEnterIndent scope) name.length

/-- `on_event` (src/lib.rs lines 263-322): when a current span exists, the
branch marker for the full scope depth is written first; then the
timing/level portion if a span start was found; then the recorded fields are
wrapped and written via `FmtEvent::print`; then the terminating newline.
The returned string is the record's full output. -/
def onEventRender (amount : Nat) (ansi : Bool) (cur : Option (Option (Option Data)))
    (scope : List Nat) (now : Int) (lvl : Level) (fields : List (String × String)) :
    Except String String :=
  let indent := onEventIndent cur.isSome scope
  let indentOut := if cur.isSome then String.mk (printIndentChars indent amount) else ""
  match eventStart cur with
  | Except.error e => Except.error e
  | Except.ok start =>
    match fmtEventPrint amount (recordFields fields) indent with
    | Except.error e => Except.error e
    | Except.ok fieldsOut =>
      Except.ok (indentOut ++ eventTimeStr ansi now lvl start ++ fieldsOut ++ "\n")

/-- Discriminator for normal return vs panic. -/
def exceptOk : Except String String → Bool
  | Except.ok _ => true
  | Except.error _ => false

/-! ## Lock/write trace of `on_event`

The claims about the concurrency discipline concern the order of lock
acquisitions and writes inside one `on_event` call. The trace below lists
the source's actions in program order (src/lib.rs lines 263-322): the
`stdout.lock()` handle is taken first and held to the end of the call
(locals drop in reverse declaration order, so the `lck` guard is released
before the stdout handle); the branch marker and the timing/level text are
written before `self.lck.lock()`, which covers only the wrapped field
portion and the final newline. -/

inductive Act
  | lockStdout
  | lockLck
  | unlockLck
  | unlockStdout
  | wrIndent
  | wrTime
  | wrFields
  | wrNewline
  deriving DecidableEq

/-- Program-order action trace of one `on_event` call; `hasSpan` selects the
branch where a current span (with its record) exists, in which the branch
marker and the timing/level text are written. -/
def onEventActs (hasSpan : Bool) : List Act :=
  [Act.lockStdout]
    ++ (if hasSpan then [Act.wrIndent, Act.wrTime] else [])
    ++ [Act.lockLck, Act.wrFields, Act.wrNewline, Act.unlockLck, Act.unlockStdout]

/-- Which actions write bytes to the output. -/
def isWrite : Act → Bool
  | Act.wrIndent => true
  | Act.wrTime => true
  | Act.wrFields => true
  | Act.wrNewline => true
  | _ => false

/-- The write actions occurring strictly between the (first) acquisition of
`lk` and the (first) following release `ulk`. -/
def writesBetween (l : List Act) (lk ulk : Act) : List Act :=
  (((l.dropWhile (fun a => a ≠ lk)).drop 1).takeWhile (fun a => a ≠ ulk)).filter isWrite

/-! ## Helper lemmas -/

theorem strBytesL_append (a b : List Char) :
    strBytesL (a ++ b) = strBytesL a + strBytesL b := by
  simp [strBytesL]

theorem idtChars_zero (a : Nat) : idtChars 0 a = [] := by
  simp [idtChars]

theorem idtChars_succ (i a : Nat) (ha : 1 ≤ a) :
    idtChars (i + 1) a = idtChars i a ++ ('┃' :: List.replicate (a - 1) ' ') := by
  obtain ⟨b, rfl⟩ : ∃ b, a = b + 1 := ⟨a - 1, by omega⟩
  unfold idtChars
  have hm : (i + 1) * (b + 1) = i * (b + 1) + (b + 1) := by ring
  rw [hm, List.range_add, List.map_append, List.map_map]
  congr 1
  rw [List.range_succ_eq_map, List.map_cons, List.map_map]
  have hz : ((fun j => if j % (b + 1) = 0 then '┃' else ' ') ∘
      (fun j => i * (b + 1) + j)) 0 = '┃' := by
    simp [Function.comp, Nat.mul_mod_left]
  rw [hz]
  congr 1
  refine (List.eq_replicate_iff.mpr ⟨by simp, ?_⟩)
  intro c hc
  obtain ⟨j, hj, rfl⟩ := List.mem_map.mp hc
  have hjb : j < b := List.mem_range.mp hj
  simp only [Function.comp]
  rw [if_neg]
  have h1 : (i * (b + 1) + Nat.succ j) % (b + 1) = Nat.succ j % (b + 1) := by
    rw [Nat.add_comm, Nat.add_mul_mod_self_right]
  rw [h1, Nat.mod_eq_of_lt (by omega)]
  omega

theorem bytes_block (b : Nat) :
    strBytesL ('┃' :: List.replicate b ' ') = b + 3 := by
  have h1 : ('┃' : Char).utf8Size = 3 := by decide
  have h2 : (' ' : Char).utf8Size = 1 := by decide
  simp [strBytesL, h1, h2, List.sum_replicate, smul_eq_mul]
  omega

theorem idtChars_bytes (i a : Nat) (ha : 1 ≤ a) :
    strBytesL (idtChars i a) = i * (a + 2) := by
  induction i with
  | zero => simp [idtChars_zero, strBytesL]
  | succ n ih =>
    rw [idtChars_succ n a ha, strBytesL_append, ih, bytes_block]
    have hm : (n + 1) * (a + 2) = n * (a + 2) + (a + 2) := by ring
    omega

theorem idtChars_length (i a : Nat) : (idtChars i a).length = i * a := by
  simp [idtChars]

theorem wrapFuel_ne_nil (width : Nat) (subInd : List Char) (fuel : Nat) (cur : List Char)
    (ws : List (List Char)) : wrapFuel width subInd fuel cur ws ≠ [] := by
  cases fuel with
  | zero => simp [wrapFuel]
  | succ n =>
    unfold wrapFuel
    split <;> simp

theorem wrapAll_ne_nil (width : Nat) (initInd subInd : List Char) (s : String)
    (hs : s.data ≠ []) : wrapAll width initInd subInd s ≠ [] := by
  unfold wrapAll
  rw [if_neg hs]
  exact wrapFuel_ne_nil width subInd (wsMeasure (splitWords s) + 1) initInd (splitWords s)

theorem wrapAll_empty (width : Nat) (initInd subInd : List Char) (s : String)
    (hs : s.data = []) : wrapAll width initInd subInd s = [] := by
  unfold wrapAll
  rw [if_pos hs]

theorem commaSpace : ("," ++ " " : String) = ", " := rfl

theorem recordDebug_true (buf n v : String) :
    recordDebug (true, buf) n v = (true, buf ++ (", " ++ fieldBody (n, v))) := by
  unfold recordDebug fieldBody
  by_cases hm : n = "message"
  · simp only [hm, if_true, if_pos]
    rw [commaSpace, String.append_assoc]
  · simp only [if_neg hm, if_true]
    rw [commaSpace, String.append_assoc]

theorem recordDebug_false (n v : String) :
    recordDebug (false, "") n v = (true, " " ++ fieldBody (n, v)) := by
  unfold recordDebug fieldBody
  by_cases hm : n = "message"
  · simp only [hm, if_true, if_pos]
    rfl
  · simp only [if_neg hm]
    rfl

theorem recordFields_foldl (fs : List (String × String)) :
    ∀ buf : String,
      (fs.foldl (fun st f => recordDebug st f.1 f.2) (true, buf)).2
        = buf ++ strConcat (fs.map (fun g => ", " ++ fieldBody g)) := by
  induction fs with
  | nil =>
    intro buf
    simp [strConcat]
  | cons f fs ih =>
    intro buf
    simp only [List.foldl_cons, List.map_cons, strConcat]
    rw [recordDebug_true buf f.1 f.2, ih (buf ++ (", " ++ fieldBody f)), String.append_assoc]

theorem writeAllLn_cons (l : List Char) (rest : List (List Char)) :
    writeAllLn (l :: rest) = String.mk l ++ "\n" ++ writeAllLn rest := rfl

theorem writeAllButLastLn_cons2 (l r : List Char) (rs : List (List Char)) :
    writeAllButLastLn (l :: r :: rs) = String.mk l ++ "\n" ++ writeAllButLastLn (r :: rs) := rfl

/-! ## The claims -/

/-- C1: every byte-writing step of `on_event` — branch marker, elapsed time
and severity label, field portion, terminating newline — occurs inside the
single acquisition of the output lock taken at the top of the function (the
`stdout.lock()` handle held until the call returns), so one record's output
is never interleaved with another's. The trace also records where the
auxiliary mutex `lck` sits: it is acquired only around the field portion and
the newline, after the branch marker and timing/level text are already
written; the serialization of the whole record rests on the stdout handle
lock. -/
theorem c1_event_writes_inside_one_stdout_lock : ∀ hasSpan : Bool,
    writesBetween (onEventActs hasSpan) Act.lockStdout Act.unlockStdout
        = (onEventActs hasSpan).filter isWrite
  ∧ (onEventActs hasSpan).count Act.lockStdout = 1
  ∧ (onEventActs hasSpan).count Act.unlockStdout = 1
  ∧ writesBetween (onEventActs hasSpan) Act.lockLck Act.unlockLck
        = [Act.wrFields, Act.wrNewline] := by
  intro hasSpan
  cases hasSpan <;> exact ⟨by decide, by decide, by decide, by decide⟩

/-- C2 counterexample: a span entry whose record lookup finds no `Data` does
not render a fallback line and return normally — it panics (the
`.expect("span does not have data")` of `on_enter`, modelled as
`Except.error`). -/
theorem c2_cex_missing_record_panics :
    onEnterRender 2 false none [0] "x" = Except.error "span does not have data" := rfl

/-- C2 (amended): only the event path's failed span lookup (`ctx.span`
returning nothing for the current span id) degrades gracefully — the event
renders with no elapsed time and no severity label (the timing/level portion
is empty when no start was found) and returns normally, demonstrated at an
event carrying a field. A span entry whose stored record is missing panics
with `span does not have data`, and an event whose found span lacks the
stored record panics with `Data cannot be found in extensions`. (An event
with an empty field buffer would separately panic on textwrap's empty wrap
result — see C10 — which is why the demonstration uses a field.) -/
theorem c2_amended_fallback_and_panics (now : Int) (lvl : Level) (name : String)
    (scope : List Nat) :
    eventStart (some none) = Except.ok none
  ∧ eventStart (some (some none)) = Except.error "Data cannot be found in extensions"
  ∧ onEnterRender 2 false none scope name = Except.error "span does not have data"
  ∧ eventTimeStr false now lvl none = ""
  ∧ exceptOk (onEventRender 2 false (some none) [0] now lvl [("count", "3")]) = true := by
  exact ⟨rfl, rfl, rfl, rfl, rfl⟩

/-- C3 counterexample: with color disabled the severity label for `INFO` is
the unpadded 4-character `INFO`, not a 5-character field. -/
theorem c3_cex_no_padding_without_color :
    eventLevelString false Level.info = "INFO"
  ∧ (eventLevelString false Level.info).length ≠ 5 := by
  exact ⟨rfl, by decide⟩

/-- C3 (amended): the 5-character padded labels (`TRACE`, `DEBUG`, ` INFO`,
` WARN`, `ERROR`) are used only when color is enabled, as the text inside
the styling escapes; with color disabled the label is the `Level`'s plain
display name, so `INFO` and `WARN` occupy 4 columns while the other three
occupy 5. -/
theorem c3_amended_level_labels : ∀ l : Level,
    (colorLevelText l).length = 5
  ∧ eventLevelString true l = ansiPaint (levelCode l) (colorLevelText l)
  ∧ eventLevelString false l = levelDisplay l
  ∧ (eventLevelString false Level.info).length = 4
  ∧ (eventLevelString false Level.warn).length = 4
  ∧ (eventLevelString false Level.trace).length = 5
  ∧ (eventLevelString false Level.debug).length = 5
  ∧ (eventLevelString false Level.error).length = 5 := by
  intro l
  cases l <;>
    exact ⟨by decide, rfl, rfl, by decide, by decide, by decide, by decide, by decide⟩

/-- C4: with the active scope listed root-first and ending in the current
span, the span-header depth (`scope.len() - 1`) counts the ancestors
excluding the entering span, the event depth (`scope.len()`) counts all
active spans including the current one — exactly one more than the header
depth — and an event with no current span uses depth 0. -/
theorem c4_depths (ancestors : List Nat) (current : Nat) (scope : List Nat) :
    onEnterIndent (ancestors ++ [current]) = ancestors.length
  ∧ onEventIndent true (ancestors ++ [current]) = ancestors.length + 1
  ∧ onEventIndent false scope = 0
  ∧ onEventIndent true (ancestors ++ [current])
      = onEnterIndent (ancestors ++ [current]) + 1 := by
  refine ⟨?_, ?_, rfl, ?_⟩ <;> simp [onEnterIndent, onEventIndent]

/-- C5 counterexample: at depth 1 and indent unit 2 the code writes `┣━`
(the constant `LINE` already carries one `━`), while the claimed marker is
`┣` followed by `(2-2)/2 = 0` repetitions of `━`. -/
theorem c5_cex_branch_glyphs : printIndentChars 1 2 ≠ specBranchMarker 1 2 := by
  decide

/-- C5 (amended): the branch marker written before an event line is the
connector prefix for `depth - 1` levels, followed by the glyph `┣` and
exactly `(unit - 2) / 2 + 1` repetitions of `━` (saturating subtraction; the
first `━` comes from the constant `"┣━"`). -/
theorem c5_amended_branch_marker (indent amount : Nat) (h : 1 ≤ indent) :
    printIndentChars indent amount
      = idtChars (indent - 1) amount ++ ('┣' :: List.replicate ((amount - 2) / 2 + 1) '━')
  ∧ (printIndentChars indent amount).count '━' = (amount - 2) / 2 + 1 := by
  have hrep : ('┣' : Char) :: '━' :: List.replicate ((amount - 2) / 2) '━'
      = '┣' :: List.replicate ((amount - 2) / 2 + 1) '━' := by
    rw [List.replicate_succ '━' ((amount - 2) / 2)]
  constructor
  · unfold printIndentChars idtChars
    rw [hrep]
  · unfold printIndentChars
    rw [List.count_append]
    have hz : (((List.range ((indent - 1) * amount)).map
        (fun i => if i % amount = 0 then '┃' else ' ')).count '━') = 0 := by
      refine List.count_eq_zero.mpr ?_
      intro hmem
      obtain ⟨j, _, hj⟩ := List.mem_map.mp hmem
      by_cases hj0 : j % amount = 0
      · rw [if_pos hj0] at hj
        exact absurd hj (by decide)
      · rw [if_neg hj0] at hj
        exact absurd hj (by decide)
    rw [hz, hrep]
    simp [List.count_cons, List.count_replicate]

/-- C5 witness: the amended marker shape at depth 3, indent unit 5. -/
theorem c5_amended_branch_marker_wit :
    1 ≤ 3 ∧ (printIndentChars 3 5).count '━' = 2 :=
  ⟨by decide, ((c5_amended_branch_marker 3 5 (by decide)).2).trans (by decide)⟩

/-- C6 counterexample: the first field is not rendered as bare `name=value`:
`record_debug` always writes `"{comma} "`, so even with the comma flag unset
a leading space precedes the first field. -/
theorem c6_cex_first_field_space :
    recordFields [("count", "3")] = " count=3"
  ∧ recordFields [("count", "3")] ≠ "count=3" := by
  exact ⟨rfl, by decide⟩

/-- C6 (amended): every field — the first included, and `message` included —
is preceded by a single space, and a comma additionally precedes that space
exactly when a prior field was already written; a field named `message`
renders as its bare debug-formatted value, every other as `name=value`, so
the buffer is ` body₀, body₁, …` with each separator before, never after,
its value. -/
theorem c6_amended_field_separators : ∀ (f : String × String) (fs : List (String × String)),
    recordFields (f :: fs)
      = " " ++ fieldBody f ++ strConcat (fs.map (fun g => ", " ++ fieldBody g)) := by
  intro f fs
  unfold recordFields
  simp only [List.foldl_cons]
  rw [show recordDebug (false, "") f.1 f.2 = (true, " " ++ fieldBody f) from
    recordDebug_false f.1 f.2]
  rw [recordFields_foldl fs (" " ++ fieldBody f), String.append_assoc]

/-- C7 counterexample: the span-header printer terminates its last (here
only) wrapped segment with a newline instead of leaving it unterminated. -/
theorem c7_cex_header_trailing_newline :
    hlPrint 2 "hello" 0 5 = Except.ok "hello\n"
  ∧ hlPrint 2 "hello" 0 5 ≠ Except.ok "hello" := by
  constructor
  · rfl
  · intro h
    rw [show hlPrint 2 "hello" 0 5 = Except.ok "hello\n" from rfl] at h
    injection h with h2
    exact absurd h2 (by decide)

/-- C7 (amended): the event field-portion printer (`FmtEvent::print`)
terminates every wrapped segment except the last with a newline and leaves
the last unterminated, for the caller to append the final newline; the
span-header printer (`HierarchicalLayer::print`) terminates every segment,
the last included — its output is exactly the event-style join plus one
trailing newline. -/
theorem c7_amended_segment_newlines : ∀ (ls : List (List Char)) (l : List Char),
    writeAllLn (l :: ls) = writeAllButLastLn (l :: ls) ++ "\n" := by
  intro ls
  induction ls with
  | nil =>
    intro l
    show String.mk l ++ "\n" ++ writeAllLn [] = String.mk l ++ "\n"
    rw [show writeAllLn [] = "" from rfl, String.append_empty]
  | cons r rs ih =>
    intro l
    rw [writeAllLn_cons, writeAllButLastLn_cons2, ih r, ← String.append_assoc]

/-- C9: the elapsed-time annotation is present exactly when an enclosing
span is active (and its record was found): the timing/level portion is empty
for `none`, and for a found start it is the elapsed whole milliseconds
(`now - start`, timestamps modelled in ms), the unit `ms`, then — separated
by the single space of the `"{timestamp}{unit} {level}"` format string — the
severity label. The span lookup yields `none` when no span is current and
the span's recorded start otherwise. -/
theorem c9_elapsed_annotation (now start : Int) (lvl : Level)
    (kvs : List (String × String)) :
    eventTimeStr false now lvl none = ""
  ∧ eventTimeStr false now lvl (some start)
      = toString (now - start) ++ "ms" ++ " " ++ levelDisplay lvl
  ∧ eventStart none = Except.ok none
  ∧ eventStart (some (some (some ⟨start, kvs⟩))) = Except.ok (some start) := by
  exact ⟨rfl, rfl, rfl, rfl⟩

/-- C10: the indent prefix of `depth * unit` characters occupies
`depth * (unit + 2)` UTF-8 bytes (each `┃` is 3 bytes, each space 1), and
the print calls complete without panic only when that byte length stays
within the budget of the unchecked subtractions `200 - idt.len()` /
`200 + name_len - idt.len()` — so deep nesting (`depth * (unit + 2) > 200`)
panics. Precisely: the header print completes exactly when the byte length
is within `200 + name_len`; the event print completes exactly when the byte
length is within `200` and the field buffer is nonempty (on an empty buffer
textwrap yields no segments and `wrapped[wrapped.len()-1]` underflows, a
further panic that only strengthens the claim's `only when`). -/
theorem c10_byte_width_overflow (indent amount nameLen : Nat) (buf : String)
    (ha : 1 ≤ amount) :
    ('┃' : Char).utf8Size = 3
  ∧ (' ' : Char).utf8Size = 1
  ∧ strBytesL (idtChars indent amount) = indent * (amount + 2)
  ∧ (exceptOk (fmtEventPrint amount buf indent) = true
      ↔ (indent * (amount + 2) ≤ 200 ∧ buf.data ≠ []))
  ∧ (200 < indent * (amount + 2) → exceptOk (fmtEventPrint amount buf indent) = false)
  ∧ (exceptOk (hlPrint amount buf indent nameLen) = true
      ↔ indent * (amount + 2) ≤ 200 + nameLen) := by
  have hb := idtChars_bytes indent amount ha
  have hEvent : exceptOk (fmtEventPrint amount buf indent) = true
      ↔ (indent * (amount + 2) ≤ 200 ∧ buf.data ≠ []) := by
    unfold fmtEventPrint
    by_cases hc : indent * (amount + 2) ≤ 200
    · rw [if_pos (by rw [hb]; exact hc)]
      by_cases hbe : buf.data = []
      · rw [wrapAll_empty (eventWidth indent amount) [] (idtChars indent amount) buf hbe]
        simp [exceptOk, hc, hbe]
      · obtain ⟨l, ls, hw⟩ := List.exists_cons_of_ne_nil
          (wrapAll_ne_nil (eventWidth indent amount) [] (idtChars indent amount) buf hbe)
        rw [hw]
        simp [exceptOk, hc, hbe]
    · rw [if_neg (by rw [hb]; exact hc)]
      simp [exceptOk, hc]
  refine ⟨by decide, by decide, hb, hEvent, ?_, ?_⟩
  · intro hdeep
    rw [← Bool.not_eq_true, hEvent]
    intro hok
    omega
  · unfold hlPrint
    by_cases hc : indent * (amount + 2) ≤ 200 + nameLen
    · rw [if_pos (by rw [hb]; exact hc)]
      simp [exceptOk, hc]
    · rw [if_neg (by rw [hb]; exact hc)]
      simp [exceptOk, hc]

/-- C10 witness: at indent unit 5 and depth 30 the indent occupies
`30 * 7 = 210 > 200` bytes and the event print panics, fields present or
not. -/
theorem c10_byte_width_overflow_wit :
    1 ≤ 5
  ∧ strBytesL (idtChars 30 5) = 210
  ∧ exceptOk (fmtEventPrint 5 " count=3" 30) = false := by
  refine ⟨by decide, ?_, ?_⟩
  · exact ((c10_byte_width_overflow 30 5 0 " count=3" (by decide)).2.2.1).trans (by decide)
  · exact (c10_byte_width_overflow 30 5 0 " count=3" (by decide)).2.2.2.2.1 (by decide)

end TracingTree
